import Mathlib

/-!
Shallow embedding of the `single-file-vsix` extension (`src/extension.ts`):
the two configuration records, their persistence in the extension's
global/workspace storage, the environment builder, the CLI argument
serializer, the process-callback behaviour and the HTML escaper, together
with theorems settling the specification claims about them.
-/

set_option maxHeartbeats 1000000

namespace SingleFileVsix

/-- Data shape for global defaults (stored in globalState);
`interface SingleFileGlobalDefaults` in `extension.ts`. -/
structure SingleFileGlobalDefaults where
  singleFileRoot : String
  configRoots : List String
  pyenvVersion : String
deriving DecidableEq, Repr

/-- Data shape for per-project "Run" settings (stored in workspaceState);
`interface SingleFileWorkspaceState` in `extension.ts`. -/
structure SingleFileWorkspaceState where
  outputFile : String
  paths : List String
  config : String
  extensions : List String
  excludeExtensions : List String
  ignoreErrors : Bool
  replaceInvalidChars : Bool
  formats : String
  forceBinaryContent : Bool
  metadataAdd : List String
  metadataRemove : List String
  excludeDirs : List String
  excludeFiles : List String
  includeDirs : List String
  includeFiles : List String
  disablePlugin : List String
  depth : String
deriving DecidableEq, Repr

/-- Embeds `getFallbackGlobalDefaults` (extension.ts lines 41-47). -/
def getFallbackGlobalDefaults : SingleFileGlobalDefaults :=
  { singleFileRoot := ""
    configRoots := []
    pyenvVersion := "" }

/-- Embeds `getFallbackWorkspaceState` (extension.ts lines 69-89). -/
def getFallbackWorkspaceState : SingleFileWorkspaceState :=
  { outputFile := ""
    paths := []
    config := ""
    extensions := []
    excludeExtensions := []
    ignoreErrors := false
    replaceInvalidChars := false
    formats := ""
    forceBinaryContent := false
    metadataAdd := []
    metadataRemove := []
    excludeDirs := []
    excludeFiles := []
    includeDirs := []
    includeFiles := []
    disablePlugin := []
    depth := "" }

/-- First-match lookup in a key/value list; models reading a key of a
JavaScript object (object keys are unique, so first match is the match). -/
def lookupAssoc {α : Type} : List (String × α) → String → Option α
  | [], _ => none
  | p :: rest, k => if p.1 = k then some p.2 else lookupAssoc rest k

/-- Key assignment on a key/value list; models `obj[key] = value` on a
JavaScript object: overwrite the key when present, append it otherwise. -/
def updateAssoc {α : Type} (l : List (String × α)) (k : String) (v : α) :
    List (String × α) :=
  if l.any (fun p => p.1 == k) then
    l.map (fun p => if p.1 = k then (k, v) else p)
  else l ++ [(k, v)]

/-- The extension's two storage areas (`context.globalState` and
`context.workspaceState`): distinct key/value stores provided by the host. -/
structure ExtensionContext where
  globalState : List (String × SingleFileGlobalDefaults)
  workspaceState : List (String × SingleFileWorkspaceState)
deriving Repr

/-- Embeds `getGlobalDefaults` (extension.ts lines 52-57):
`context.globalState.get('singlefileGlobalDefaults', getFallbackGlobalDefaults())`. -/
def getGlobalDefaults (ctx : ExtensionContext) : SingleFileGlobalDefaults :=
  (lookupAssoc ctx.globalState "singlefileGlobalDefaults").getD getFallbackGlobalDefaults

/-- Embeds `setGlobalDefaults` (extension.ts lines 62-64):
`context.globalState.update('singlefileGlobalDefaults', data)`. -/
def setGlobalDefaults (ctx : ExtensionContext) (data : SingleFileGlobalDefaults) :
    ExtensionContext :=
  { ctx with globalState := updateAssoc ctx.globalState "singlefileGlobalDefaults" data }

/-- Embeds `getWorkspaceDefaults` (extension.ts lines 94-99):
`context.workspaceState.get('singlefileWorkspaceDefaults', getFallbackWorkspaceState())`. -/
def getWorkspaceDefaults (ctx : ExtensionContext) : SingleFileWorkspaceState :=
  (lookupAssoc ctx.workspaceState "singlefileWorkspaceDefaults").getD getFallbackWorkspaceState

/-- Embeds `setWorkspaceDefaults` (extension.ts lines 104-109):
`context.workspaceState.update('singlefileWorkspaceDefaults', data)`. -/
def setWorkspaceDefaults (ctx : ExtensionContext) (data : SingleFileWorkspaceState) :
    ExtensionContext :=
  { ctx with workspaceState := updateAssoc ctx.workspaceState "singlefileWorkspaceDefaults" data }

/-- The state change of the `runSingleFile` message handler
(extension.ts lines 521-530): the submitted record `message.data` is stored
whole via `setWorkspaceDefaults(context, args)`. -/
def runSubmitState (ctx : ExtensionContext) (submitted : SingleFileWorkspaceState) :
    ExtensionContext :=
  setWorkspaceDefaults ctx submitted

/-- Embeds `buildSingleFileEnv` (extension.ts lines 193-204), over an explicit
ambient environment (`process.env`, copied by `{ ...process.env }`) and the
platform path delimiter (`path.delimiter`). -/
def buildSingleFileEnv (delim : String) (ambient : List (String × String))
    (globals : SingleFileGlobalDefaults) : List (String × String) :=
  let env := ambient
  let env := if globals.pyenvVersion ≠ "" then
      updateAssoc env "PYENV_VERSION" globals.pyenvVersion
    else env
  let env := if globals.configRoots ≠ [] then
      updateAssoc env "SINGLEFILE_CONFIG_PATH"
        (String.intercalate delim globals.configRoots)
    else env
  env

/-- The JavaScript regular-expression whitespace class `\s`. -/
def isJsWhitespace (c : Char) : Bool :=
  c = ' ' || c = '\t' || c = '\n' || c = '\r' ||
  c = Char.ofNat 11 || c = Char.ofNat 12 || c = Char.ofNat 160 ||
  c = Char.ofNat 0x1680 || (0x2000 ≤ c.toNat && c.toNat ≤ 0x200A) ||
  c = Char.ofNat 0x2028 || c = Char.ofNat 0x2029 || c = Char.ofNat 0x202F ||
  c = Char.ofNat 0x205F || c = Char.ofNat 0x3000 || c = Char.ofNat 0xFEFF

/-- Replace each maximal run of whitespace with a single comma; the Boolean
tracks whether the previous character was inside a whitespace run. -/
def replaceWsRunsAux : Bool → List Char → List Char
  | _, [] => []
  | inRun, c :: rest =>
    if isJsWhitespace c then
      if inRun then replaceWsRunsAux true rest
      else ',' :: replaceWsRunsAux true rest
    else c :: replaceWsRunsAux false rest

/-- Embeds `args.formats.replace(/\s+/g, ',')` (extension.ts line 644). -/
def cleanFormats (s : String) : String :=
  String.mk (replaceWsRunsAux false s.data)

/-- The CLI argument list built by `runSingleFileCLI` (extension.ts lines
620-673): a sequence of conditional pushes onto `cliArgs`. -/
def buildCliArgs (a : SingleFileWorkspaceState) : List String :=
  let cliArgs : List String := []
  let cliArgs := if a.outputFile ≠ "" then cliArgs ++ ["--output-file", a.outputFile] else cliArgs
  let cliArgs := if a.paths ≠ [] then cliArgs ++ ("--paths" :: a.paths) else cliArgs
  let cliArgs := if a.depth ≠ "" then cliArgs ++ ["--depth", a.depth] else cliArgs
  let cliArgs := if a.extensions ≠ [] then cliArgs ++ ("--extensions" :: a.extensions) else cliArgs
  let cliArgs := if a.excludeExtensions ≠ [] then cliArgs ++ ("--exclude-extensions" :: a.excludeExtensions) else cliArgs
  let cliArgs := if a.ignoreErrors then cliArgs ++ ["--ignore-errors"] else cliArgs
  let cliArgs := if a.replaceInvalidChars then cliArgs ++ ["--replace-invalid-chars"] else cliArgs
  let cliArgs := if a.formats ≠ "" then cliArgs ++ ["--formats", cleanFormats a.formats] else cliArgs
  let cliArgs := if a.config ≠ "" then cliArgs ++ ["--config", a.config] else cliArgs
  let cliArgs := if a.forceBinaryContent then cliArgs ++ ["--force-binary-content"] else cliArgs
  let cliArgs := if a.metadataAdd ≠ [] then cliArgs ++ ("--metadata-add" :: a.metadataAdd) else cliArgs
  let cliArgs := if a.metadataRemove ≠ [] then cliArgs ++ ("--metadata-remove" :: a.metadataRemove) else cliArgs
  let cliArgs := if a.excludeDirs ≠ [] then cliArgs ++ ("--exclude-dirs" :: a.excludeDirs) else cliArgs
  let cliArgs := if a.excludeFiles ≠ [] then cliArgs ++ ("--exclude-files" :: a.excludeFiles) else cliArgs
  let cliArgs := if a.includeDirs ≠ [] then cliArgs ++ ("--include-dirs" :: a.includeDirs) else cliArgs
  let cliArgs := if a.includeFiles ≠ [] then cliArgs ++ ("--include-files" :: a.includeFiles) else cliArgs
  let cliArgs := if a.disablePlugin ≠ [] then cliArgs ++ ("--disable-plugin" :: a.disablePlugin) else cliArgs
  cliArgs

/-- The claim's wording for the serialized argument list: the flag/value
segments in the stated flag order, each segment present exactly when its
field is a non-empty string, a non-empty list, or a true Boolean, with the
formats value being the stored string with whitespace runs replaced by
commas. -/
def claimCliArgs (a : SingleFileWorkspaceState) : List String :=
  List.flatten
    [if a.outputFile ≠ "" then ["--output-file", a.outputFile] else [],
     if a.paths ≠ [] then "--paths" :: a.paths else [],
     if a.depth ≠ "" then ["--depth", a.depth] else [],
     if a.extensions ≠ [] then "--extensions" :: a.extensions else [],
     if a.excludeExtensions ≠ [] then "--exclude-extensions" :: a.excludeExtensions else [],
     if a.ignoreErrors then ["--ignore-errors"] else [],
     if a.replaceInvalidChars then ["--replace-invalid-chars"] else [],
     if a.formats ≠ "" then ["--formats", cleanFormats a.formats] else [],
     if a.config ≠ "" then ["--config", a.config] else [],
     if a.forceBinaryContent then ["--force-binary-content"] else [],
     if a.metadataAdd ≠ [] then "--metadata-add" :: a.metadataAdd else [],
     if a.metadataRemove ≠ [] then "--metadata-remove" :: a.metadataRemove else [],
     if a.excludeDirs ≠ [] then "--exclude-dirs" :: a.excludeDirs else [],
     if a.excludeFiles ≠ [] then "--exclude-files" :: a.excludeFiles else [],
     if a.includeDirs ≠ [] then "--include-dirs" :: a.includeDirs else [],
     if a.includeFiles ≠ [] then "--include-files" :: a.includeFiles else [],
     if a.disablePlugin ≠ [] then "--disable-plugin" :: a.disablePlugin else []]

/-- The double-quote character. -/
def quoteChar : Char := Char.ofNat 34

/-- The apostrophe character. -/
def apostropheChar : Char := Char.ofNat 39

/-- Embeds `replace(/^"(.*)"$/, '$1')` (extension.ts lines 613 and 149): strip one
pair of wrapping double quotes; `.` does not match a line terminator, so a
quoted string containing one is left unchanged. -/
def stripWrappingQuotes (s : String) : String :=
  match s.data with
  | c :: rest =>
    if c = quoteChar ∧ rest ≠ [] ∧ rest.getLast? = some quoteChar ∧
        rest.dropLast.all
          (fun d => !(d = '\n' || d = '\r' || d = Char.ofNat 0x2028 || d = Char.ofNat 0x2029)) then
      String.mk rest.dropLast
    else s
  | [] => s

/-- The single-file executable path decided by `runSingleFileCLI`
(extension.ts lines 607-617); `path.join` is modelled as joining with the
platform separator `sep`. -/
def resolveSingleFileExe (sep : String) (root : String) : String :=
  if root = "" then "single-file"
  else if root.endsWith "single-file" then stripWrappingQuotes root
  else root ++ sep ++ "single-file"

/-- Observable steps of a run-form submission. -/
inductive RunEvent where
  | persist (w : SingleFileWorkspaceState)
  | invoke (cmd : String) (args : List String)
  | streamOutput (chunk : String)
  | resolveOk
  | rejectErr (msg : String)
deriving DecidableEq, Repr

/-- The `execFile` callback of `runSingleFileCLI` (extension.ts lines
694-702): append non-empty stdout, append non-empty stderr, then reject
with the error if there is one and resolve otherwise. -/
def runCallbackEvents (error : Option String) (stdout stderr : String) :
    List RunEvent :=
  (if stdout ≠ "" then [RunEvent.streamOutput stdout] else []) ++
  (if stderr ≠ "" then [RunEvent.streamOutput stderr] else []) ++
  (match error with
   | some e => [RunEvent.rejectErr e]
   | none => [RunEvent.resolveOk])

/-- Observable steps of `runSingleFileCLI` (extension.ts lines 602-704):
spawn `python` on the resolved script with the serialized arguments, then
run the completion callback on the process's outcome. -/
def runSingleFileCLITrace (sep : String) (g : SingleFileGlobalDefaults)
    (a : SingleFileWorkspaceState) (error : Option String)
    (stdout stderr : String) : List RunEvent :=
  RunEvent.invoke "python"
      (resolveSingleFileExe sep g.singleFileRoot :: buildCliArgs a) ::
    runCallbackEvents error stdout stderr

/-- Observable steps of the `runSingleFile` message handler (extension.ts
lines 521-530): `await setWorkspaceDefaults(context, args)` and then
`await runSingleFileCLI(globals, args)`. -/
def runSubmitTrace (sep : String) (g : SingleFileGlobalDefaults)
    (w : SingleFileWorkspaceState) (error : Option String)
    (stdout stderr : String) : List RunEvent :=
  RunEvent.persist w :: runSingleFileCLITrace sep g w error stdout stderr

/-- Split on the regular expression `/\r?\n/` (extension.ts line 124). -/
def splitLinesAux : List Char → List Char → List String
  | acc, [] => [String.mk acc.reverse]
  | acc, '\n' :: rest => String.mk acc.reverse :: splitLinesAux [] rest
  | acc, '\r' :: '\n' :: rest => String.mk acc.reverse :: splitLinesAux [] rest
  | acc, c :: rest => splitLinesAux (c :: acc) rest

/-- Embeds `str.trim()` of JavaScript: remove leading and trailing whitespace. -/
def jsTrim (s : String) : String :=
  String.mk (((s.data.dropWhile isJsWhitespace).reverse.dropWhile isJsWhitespace).reverse)

/-- The resolved value of `fetchPyenvVersions` (extension.ts lines 115-130)
as a function of the `execFile` outcome: `[]` on error, otherwise stdout
split on `/\r?\n/`, trimmed, keeping the non-empty lines. -/
def fetchPyenvVersionsResult (error : Option String) (stdout : String) :
    List String :=
  match error with
  | some _ => []
  | none =>
    ((splitLinesAux [] stdout.data).map jsTrim).filter (fun line => 0 < line.length)

/-- One entry of the `configs` array returned by the query. -/
structure ConfigEntry where
  path : String
  file : String
deriving DecidableEq, Repr

/-- The outcome of `JSON.parse(stdout)` seen by `fetchQueryData`: `none`
models a parse failure (an exception), and each field is `none` when the
parsed object lacks it (so `data.formats || {}` falls back). -/
structure QueryJson where
  formats : Option (List (String × String))
  configs : Option (List ConfigEntry)

/-- The resolved value of `fetchQueryData` (extension.ts lines 136-186). -/
structure QueryResult where
  formats : List (String × String)
  configs : List ConfigEntry
deriving DecidableEq, Repr

/-- The resolved value of `fetchQueryData` as a function of the `execFile`
outcome and the JSON parse outcome: empty formats/configs on a process
error or a parse failure, otherwise the parsed fields with falsy fields
defaulted. -/
def fetchQueryDataResult (error : Option String) (parsed : Option QueryJson) :
    QueryResult :=
  match error with
  | some _ => { formats := [], configs := [] }
  | none =>
    match parsed with
    | none => { formats := [], configs := [] }
    | some d => { formats := d.formats.getD [], configs := d.configs.getD [] }

/-- A VS Code URI, reduced to the one field the extension reads. -/
structure Uri where
  fsPath : String
deriving DecidableEq, Repr

/-- The record handed to the run-form renderer by `showSingleFileRunPanel`
(extension.ts lines 458-463): the persisted workspace defaults, with the
paths overridden by the explorer selection when one was passed and is
non-empty. -/
def prefillRunPanelState (ctx : ExtensionContext)
    (selectedUris : Option (List Uri)) : SingleFileWorkspaceState :=
  let wsDefaults := getWorkspaceDefaults ctx
  match selectedUris with
  | some us =>
    if 0 < us.length then { wsDefaults with paths := us.map Uri.fsPath }
    else wsDefaults
  | none => wsDefaults

/-- Global replacement of the single character `c` by the string `r`:
`str.replace(/c/g, r)`. -/
def replaceAllChar (c : Char) (r : List Char) (l : List Char) : List Char :=
  l.flatMap (fun d => if d = c then r else [d])

/-- Replacement text for `&`. -/
def ampEscape : List Char := ['&', 'a', 'm', 'p', ';']

/-- Replacement text for `<`. -/
def ltEscape : List Char := ['&', 'l', 't', ';']

/-- Replacement text for `>`. -/
def gtEscape : List Char := ['&', 'g', 't', ';']

/-- Replacement text for the double quote. -/
def quotEscape : List Char := ['&', 'q', 'u', 'o', 't', ';']

/-- Replacement text for the apostrophe. -/
def aposEscape : List Char := ['&', '#', '3', '9', ';']

/-- Embeds `escapeHtml` (extension.ts lines 1065-1072): five successive global
single-character replacements, in the source's order. -/
def escapeHtml (s : String) : String :=
  String.mk
    (replaceAllChar apostropheChar aposEscape
      (replaceAllChar quoteChar quotEscape
        (replaceAllChar '>' gtEscape
          (replaceAllChar '<' ltEscape
            (replaceAllChar '&' ampEscape s.data)))))

/-- The per-character effect of the five replacement passes combined. -/
def escapeHtmlChar (d : Char) : List Char :=
  if d = '&' then ampEscape
  else if d = '<' then ltEscape
  else if d = '>' then gtEscape
  else if d = quoteChar then quotEscape
  else if d = apostropheChar then aposEscape
  else [d]

/-- No raw `<`, `>`, `"` or apostrophe occurs in the character list. -/
def HtmlFree (l : List Char) : Prop :=
  ∀ c ∈ l, c ≠ '<' ∧ c ≠ '>' ∧ c ≠ quoteChar ∧ c ≠ apostropheChar

/-- The texts that may follow a `&` in escaped output. -/
def entitySuffixes : List (List Char) :=
  [['a', 'm', 'p', ';'], ['l', 't', ';'], ['g', 't', ';'],
   ['q', 'u', 'o', 't', ';'], ['#', '3', '9', ';']]

/-- Every `&` in the character list begins one of the five entities. -/
def AmpWellFormed (l : List Char) : Prop :=
  ∀ pre suf, l = pre ++ '&' :: suf → ∃ ent ∈ entitySuffixes, ent <+: suf

/-- The escaped values interpolated into the run-panel HTML by
`getRunPanelWebviewHTML` (extension.ts lines 719-733). -/
def runPanelEscapedValues (ws : SingleFileWorkspaceState) : List String :=
  ws.paths.map escapeHtml ++
  [escapeHtml ws.outputFile,
   escapeHtml ws.config,
   escapeHtml (String.intercalate "," ws.extensions),
   escapeHtml (String.intercalate "," ws.excludeExtensions),
   escapeHtml ws.formats,
   escapeHtml (String.intercalate "," ws.metadataAdd),
   escapeHtml (String.intercalate "," ws.metadataRemove),
   escapeHtml (String.intercalate "," ws.excludeDirs),
   escapeHtml (String.intercalate "," ws.excludeFiles),
   escapeHtml (String.intercalate "," ws.includeDirs),
   escapeHtml (String.intercalate "," ws.includeFiles),
   escapeHtml (String.intercalate "," ws.disablePlugin),
   escapeHtml ws.depth]

/-- A fresh context: nothing stored in either storage area yet. -/
def emptyContext : ExtensionContext :=
  { globalState := [], workspaceState := [] }

/-- A run-settings record that differs from the claim's prediction: its
formats field contains a space. -/
def formatsSpaceState : SingleFileWorkspaceState :=
  { getFallbackWorkspaceState with formats := "default json" }

theorem lookupAssoc_map_set {α : Type} (l : List (String × α)) (k : String) (v : α)
    (h : l.any (fun p => p.1 == k) = true) :
    lookupAssoc (l.map (fun p => if p.1 = k then (k, v) else p)) k = some v := by
  induction l with
  | nil => simp at h
  | cons p rest ih =>
    by_cases hk : p.1 = k
    · simp [lookupAssoc, hk]
    · simp only [List.map_cons, lookupAssoc, if_neg hk]
      apply ih
      simp only [List.any_cons, Bool.or_eq_true, beq_iff_eq] at h
      rcases h with h | h
      · exact absurd h hk
      · simpa using h

theorem lookupAssoc_append_of_any_eq_false {α : Type} (l m : List (String × α))
    (k : String) (h : l.any (fun p => p.1 == k) = false) :
    lookupAssoc (l ++ m) k = lookupAssoc m k := by
  induction l with
  | nil => simp
  | cons p rest ih =>
    simp only [List.any_cons, Bool.or_eq_false_iff, beq_eq_false_iff_ne] at h
    simp only [List.cons_append, lookupAssoc, if_neg h.1]
    exact ih h.2

theorem lookupAssoc_updateAssoc_self {α : Type} (l : List (String × α))
    (k : String) (v : α) :
    lookupAssoc (updateAssoc l k v) k = some v := by
  unfold updateAssoc
  by_cases h : l.any (fun p => p.1 == k) = true
  · rw [if_pos h]
    exact lookupAssoc_map_set l k v h
  · rw [if_neg h, lookupAssoc_append_of_any_eq_false l _ k (Bool.eq_false_iff.mpr h)]
    simp [lookupAssoc]

theorem lookupAssoc_map_set_other {α : Type} (l : List (String × α)) (k k' : String)
    (v : α) (hne : k' ≠ k) :
    lookupAssoc (l.map (fun p => if p.1 = k then (k, v) else p)) k' = lookupAssoc l k' := by
  induction l with
  | nil => rfl
  | cons p rest ih =>
    by_cases hk : p.1 = k
    · simp [lookupAssoc, hk, Ne.symm hne, ih]
    · simp [lookupAssoc, hk, ih]

theorem lookupAssoc_append {α : Type} (l m : List (String × α)) (k : String) :
    lookupAssoc (l ++ m) k =
      match lookupAssoc l k with
      | some v => some v
      | none => lookupAssoc m k := by
  induction l with
  | nil => simp [lookupAssoc]
  | cons p rest ih =>
    by_cases hk : p.1 = k
    · simp [lookupAssoc, hk]
    · simp [lookupAssoc, hk, ih]

theorem lookupAssoc_updateAssoc_other {α : Type} (l : List (String × α))
    (k k' : String) (v : α) (hne : k' ≠ k) :
    lookupAssoc (updateAssoc l k v) k' = lookupAssoc l k' := by
  unfold updateAssoc
  by_cases h : l.any (fun p => p.1 == k) = true
  · rw [if_pos h]
    exact lookupAssoc_map_set_other l k k' v hne
  · rw [if_neg h, lookupAssoc_append]
    cases hl : lookupAssoc l k' with
    | some w => rfl
    | none => simp [lookupAssoc, Ne.symm hne]

/-- C2: `buildSingleFileEnv` returns the ambient environment, with
`PYENV_VERSION` set to `pyenvVersion` exactly when `pyenvVersion` is a
non-empty string, `SINGLEFILE_CONFIG_PATH` set to the configRoots joined
with the platform path delimiter exactly when `configRoots` is non-empty,
and every other variable read exactly as in the ambient environment. -/
theorem claim2_build_env (delim : String) (ambient : List (String × String))
    (g : SingleFileGlobalDefaults) (k : String) :
    lookupAssoc (buildSingleFileEnv delim ambient g) k =
      (if k = "PYENV_VERSION" ∧ g.pyenvVersion ≠ "" then some g.pyenvVersion
       else if k = "SINGLEFILE_CONFIG_PATH" ∧ g.configRoots ≠ [] then
         some (String.intercalate delim g.configRoots)
       else lookupAssoc ambient k) := by
  have hPS : ("PYENV_VERSION" : String) ≠ "SINGLEFILE_CONFIG_PATH" := by decide
  by_cases hp : g.pyenvVersion = "" <;> by_cases hc : g.configRoots = []
  · simp [buildSingleFileEnv, hp, hc]
  · by_cases hk2 : k = "SINGLEFILE_CONFIG_PATH"
    · subst hk2
      simp [buildSingleFileEnv, hp, hc, hPS.symm, lookupAssoc_updateAssoc_self]
    · simp [buildSingleFileEnv, hp, hc, hk2,
        lookupAssoc_updateAssoc_other ambient _ k _ hk2]
  · by_cases hk1 : k = "PYENV_VERSION"
    · subst hk1
      simp [buildSingleFileEnv, hp, hc, lookupAssoc_updateAssoc_self]
    · simp [buildSingleFileEnv, hp, hc, hk1,
        lookupAssoc_updateAssoc_other ambient _ k _ hk1]
  · by_cases hk1 : k = "PYENV_VERSION"
    · subst hk1
      simp [buildSingleFileEnv, hp, hc, hPS,
        lookupAssoc_updateAssoc_other _ _ _ _ hPS, lookupAssoc_updateAssoc_self]
    · by_cases hk2 : k = "SINGLEFILE_CONFIG_PATH"
      · subst hk2
        simp [buildSingleFileEnv, hp, hc, hk1, lookupAssoc_updateAssoc_self]
      · simp [buildSingleFileEnv, hp, hc, hk1, hk2,
          lookupAssoc_updateAssoc_other _ _ k _ hk2,
          lookupAssoc_updateAssoc_other ambient _ k _ hk1]

/-- C3: the `runSingleFile` handler stores the submitted record whole, so
the next read of the workspace defaults returns exactly the submitted
record, whatever was stored before. -/
theorem claim3_submit_overwrites (ctx : ExtensionContext)
    (submitted : SingleFileWorkspaceState) :
    getWorkspaceDefaults (runSubmitState ctx submitted) = submitted := by
  simp [runSubmitState, getWorkspaceDefaults, setWorkspaceDefaults,
    lookupAssoc_updateAssoc_self]

/-- C6: when nothing is stored under the extension's keys, the global
defaults read back with every field empty and the workspace defaults read
back with every string field `""`, every list field `[]` and every Boolean
field `false`. -/
theorem claim6_fresh_defaults (ctx : ExtensionContext)
    (hg : lookupAssoc ctx.globalState "singlefileGlobalDefaults" = none)
    (hw : lookupAssoc ctx.workspaceState "singlefileWorkspaceDefaults" = none) :
    (getGlobalDefaults ctx).singleFileRoot = "" ∧
    (getGlobalDefaults ctx).configRoots = [] ∧
    (getGlobalDefaults ctx).pyenvVersion = "" ∧
    (getWorkspaceDefaults ctx).outputFile = "" ∧
    (getWorkspaceDefaults ctx).paths = [] ∧
    (getWorkspaceDefaults ctx).config = "" ∧
    (getWorkspaceDefaults ctx).extensions = [] ∧
    (getWorkspaceDefaults ctx).excludeExtensions = [] ∧
    (getWorkspaceDefaults ctx).ignoreErrors = false ∧
    (getWorkspaceDefaults ctx).replaceInvalidChars = false ∧
    (getWorkspaceDefaults ctx).formats = "" ∧
    (getWorkspaceDefaults ctx).forceBinaryContent = false ∧
    (getWorkspaceDefaults ctx).metadataAdd = [] ∧
    (getWorkspaceDefaults ctx).metadataRemove = [] ∧
    (getWorkspaceDefaults ctx).excludeDirs = [] ∧
    (getWorkspaceDefaults ctx).excludeFiles = [] ∧
    (getWorkspaceDefaults ctx).includeDirs = [] ∧
    (getWorkspaceDefaults ctx).includeFiles = [] ∧
    (getWorkspaceDefaults ctx).disablePlugin = [] ∧
    (getWorkspaceDefaults ctx).depth = "" := by
  unfold getGlobalDefaults getWorkspaceDefaults
  rw [hg, hw]
  simp [getFallbackGlobalDefaults, getFallbackWorkspaceState]

/-- Witness for C6 at the fresh context. -/
theorem claim6_fresh_defaults_witness :
    lookupAssoc emptyContext.globalState "singlefileGlobalDefaults" = none ∧
    lookupAssoc emptyContext.workspaceState "singlefileWorkspaceDefaults" = none ∧
    (getGlobalDefaults emptyContext).singleFileRoot = "" :=
  ⟨rfl, rfl, (claim6_fresh_defaults emptyContext rfl rfl).1⟩

/-- C7: both stores round-trip a written record, and writing one store
leaves the other store's read unchanged. -/
theorem claim7_roundtrip_independence (ctx : ExtensionContext)
    (g : SingleFileGlobalDefaults) (w : SingleFileWorkspaceState) :
    getGlobalDefaults (setGlobalDefaults ctx g) = g ∧
    getWorkspaceDefaults (setWorkspaceDefaults ctx w) = w ∧
    getWorkspaceDefaults (setGlobalDefaults ctx g) = getWorkspaceDefaults ctx ∧
    getGlobalDefaults (setWorkspaceDefaults ctx w) = getGlobalDefaults ctx := by
  refine ⟨?_, ?_, rfl, rfl⟩ <;>
    simp [getGlobalDefaults, setGlobalDefaults, getWorkspaceDefaults,
      setWorkspaceDefaults, lookupAssoc_updateAssoc_self]

/-- C8: the record handed to the run-form renderer keeps every field of
the persisted workspace defaults, except that its paths are the selected
items' file-system paths (in selection order) when a non-empty selection
was passed. -/
theorem claim8_prefill (ctx : ExtensionContext) (sel : Option (List Uri)) :
    (prefillRunPanelState ctx sel).paths =
      (match sel with
       | some us =>
         if 0 < us.length then us.map Uri.fsPath
         else (getWorkspaceDefaults ctx).paths
       | none => (getWorkspaceDefaults ctx).paths) ∧
    (prefillRunPanelState ctx sel).outputFile = (getWorkspaceDefaults ctx).outputFile ∧
    (prefillRunPanelState ctx sel).config = (getWorkspaceDefaults ctx).config ∧
    (prefillRunPanelState ctx sel).extensions = (getWorkspaceDefaults ctx).extensions ∧
    (prefillRunPanelState ctx sel).excludeExtensions = (getWorkspaceDefaults ctx).excludeExtensions ∧
    (prefillRunPanelState ctx sel).ignoreErrors = (getWorkspaceDefaults ctx).ignoreErrors ∧
    (prefillRunPanelState ctx sel).replaceInvalidChars = (getWorkspaceDefaults ctx).replaceInvalidChars ∧
    (prefillRunPanelState ctx sel).formats = (getWorkspaceDefaults ctx).formats ∧
    (prefillRunPanelState ctx sel).forceBinaryContent = (getWorkspaceDefaults ctx).forceBinaryContent ∧
    (prefillRunPanelState ctx sel).metadataAdd = (getWorkspaceDefaults ctx).metadataAdd ∧
    (prefillRunPanelState ctx sel).metadataRemove = (getWorkspaceDefaults ctx).metadataRemove ∧
    (prefillRunPanelState ctx sel).excludeDirs = (getWorkspaceDefaults ctx).excludeDirs ∧
    (prefillRunPanelState ctx sel).excludeFiles = (getWorkspaceDefaults ctx).excludeFiles ∧
    (prefillRunPanelState ctx sel).includeDirs = (getWorkspaceDefaults ctx).includeDirs ∧
    (prefillRunPanelState ctx sel).includeFiles = (getWorkspaceDefaults ctx).includeFiles ∧
    (prefillRunPanelState ctx sel).disablePlugin = (getWorkspaceDefaults ctx).disablePlugin ∧
    (prefillRunPanelState ctx sel).depth = (getWorkspaceDefaults ctx).depth := by
  cases sel with
  | none => simp [prefillRunPanelState]
  | some us =>
    by_cases h : 0 < us.length <;> simp [prefillRunPanelState, h]

theorem cond_append_push {α : Type} (P : Prop) [Decidable P] (c x : List α) :
    (if P then c ++ x else c) = c ++ (if P then x else []) := by
  split <;> simp

/-- C1 counterexample: for the record whose formats field is
`"default json"`, the serialized list is `["--formats", "default,json"]`,
so the formats flag is not followed by the field's value as the claim
states. -/
theorem claim1_counterexample :
    buildCliArgs formatsSpaceState = ["--formats", "default,json"] ∧
    buildCliArgs formatsSpaceState ≠ ["--formats", formatsSpaceState.formats] := by
  constructor
  · rfl
  · decide

/-- C1 (amended): `runSingleFileCLI` serializes a run-settings record into
the flag/value segments in the claim's flag order, each segment present
exactly when its field is a non-empty string, a non-empty list, or a true
Boolean, each flag followed by its field's value(s) in stored order —
except that the formats value is the stored string with each whitespace
run replaced by a comma; the all-empty record serializes to `[]`. -/
theorem claim1_cli_serialization (a : SingleFileWorkspaceState) :
    buildCliArgs a = claimCliArgs a ∧ buildCliArgs getFallbackWorkspaceState = [] := by
  constructor
  · unfold buildCliArgs claimCliArgs
    simp only [cond_append_push]
    simp only [List.flatten_cons, List.flatten_nil, List.nil_append,
      List.append_nil, List.append_assoc]
  · rfl

/-- C4 counterexample: on a concrete submission the handler's step
sequence puts the persistence of the submitted settings strictly before
the process invocation, not after the output streaming as the claim
states. -/
theorem claim4_counterexample :
    runSubmitTrace "/" ⟨"", [], ""⟩ getFallbackWorkspaceState none "output" "" =
      [RunEvent.persist getFallbackWorkspaceState,
       RunEvent.invoke "python" ["single-file"],
       RunEvent.streamOutput "output", RunEvent.resolveOk] ∧
    ¬ ((runSubmitTrace "/" ⟨"", [], ""⟩ getFallbackWorkspaceState none "output" "").findIdx
          (fun e => e == RunEvent.invoke "python" ["single-file"]) <
        (runSubmitTrace "/" ⟨"", [], ""⟩ getFallbackWorkspaceState none "output" "").findIdx
          (fun e => e == RunEvent.persist getFallbackWorkspaceState)) := by
  constructor
  · rfl
  · decide

/-- C4 (amended): after a run-form submission the observable steps are, in
order: the submitted settings are persisted, then the external process is
invoked with the serialized argument list, and then only output streaming
and promise settlement happen. -/
theorem claim4_submit_order (sep : String) (g : SingleFileGlobalDefaults)
    (w : SingleFileWorkspaceState) (error : Option String)
    (stdout stderr : String) :
    ∃ rest, runSubmitTrace sep g w error stdout stderr =
        RunEvent.persist w ::
          RunEvent.invoke "python"
            (resolveSingleFileExe sep g.singleFileRoot :: buildCliArgs w) :: rest ∧
      (rest.all (fun e =>
        match e with
        | RunEvent.streamOutput _ => true
        | RunEvent.resolveOk => true
        | RunEvent.rejectErr _ => true
        | _ => false)) = true := by
  refine ⟨runCallbackEvents error stdout stderr, rfl, ?_⟩
  cases error <;> by_cases h1 : stdout = "" <;> by_cases h2 : stderr = "" <;>
    simp [runCallbackEvents, h1, h2]

/-- C5: the `execFile` callback of `runSingleFileCLI` settles last —
resolving when the process reported no error and rejecting with that error
otherwise — and before settling appends exactly the non-empty ones of
stdout and stderr to the output channel. -/
theorem claim5_callback (error : Option String) (stdout stderr : String) :
    (runCallbackEvents error stdout stderr).getLast? =
      some (match error with
            | some e => RunEvent.rejectErr e
            | none => RunEvent.resolveOk) ∧
    (RunEvent.streamOutput stdout ∈ (runCallbackEvents error stdout stderr).dropLast ↔
      stdout ≠ "") ∧
    (RunEvent.streamOutput stderr ∈ (runCallbackEvents error stdout stderr).dropLast ↔
      stderr ≠ "") ∧
    ((runCallbackEvents error stdout stderr).dropLast.all (fun e =>
      match e with
      | RunEvent.streamOutput _ => true
      | _ => false)) = true := by
  cases error <;> by_cases h1 : stdout = "" <;> by_cases h2 : stderr = "" <;>
    simp_all [runCallbackEvents] <;>
    first
    | exact fun h => h2 h.symm
    | exact fun h => h1 h.symm

/-- C9: the query helpers always produce a value: `fetchPyenvVersions`
yields the trimmed non-empty lines of stdout on success and `[]` on any
process error, and `fetchQueryData` yields the parsed formats/configs on
success and empty formats/configs on any process error or parse failure. -/
theorem claim9_query_helpers (e : String) (stdout : String)
    (parsed : Option QueryJson) (d : QueryJson) :
    fetchPyenvVersionsResult (some e) stdout = [] ∧
    fetchPyenvVersionsResult none stdout =
      ((splitLinesAux [] stdout.data).map jsTrim).filter (fun line => line ≠ "") ∧
    fetchQueryDataResult (some e) parsed = { formats := [], configs := [] } ∧
    fetchQueryDataResult none none = { formats := [], configs := [] } ∧
    fetchQueryDataResult none (some d) =
      { formats := d.formats.getD [], configs := d.configs.getD [] } := by
  refine ⟨rfl, ?_, rfl, rfl, rfl⟩
  unfold fetchPyenvVersionsResult
  apply List.filter_congr
  intro line _
  simp only [decide_eq_decide]
  constructor
  · intro h hlen
    rw [hlen] at h
    simp at h
  · intro h
    cases hl : line.length with
    | zero =>
      exfalso
      apply h
      cases line with
      | mk data =>
        simp [String.length] at hl
        simp [hl]
    | succ n => omega

theorem replaceAllChar_cons (c : Char) (r : List Char) (d : Char) (t : List Char) :
    replaceAllChar c r (d :: t) = (if d = c then r else [d]) ++ replaceAllChar c r t := by
  simp [replaceAllChar]

theorem replaceAllChar_append (c : Char) (r : List Char) (l1 l2 : List Char) :
    replaceAllChar c r (l1 ++ l2) = replaceAllChar c r l1 ++ replaceAllChar c r l2 := by
  simp [replaceAllChar]

theorem escapeHtml_passes_eq_flatMap (l : List Char) :
    replaceAllChar apostropheChar aposEscape
      (replaceAllChar quoteChar quotEscape
        (replaceAllChar '>' gtEscape
          (replaceAllChar '<' ltEscape
            (replaceAllChar '&' ampEscape l)))) = l.flatMap escapeHtmlChar := by
  induction l with
  | nil => rfl
  | cons d t ih =>
    rw [replaceAllChar_cons, replaceAllChar_append, replaceAllChar_append,
      replaceAllChar_append, replaceAllChar_append, List.flatMap_cons, ih]
    congr 1
    by_cases h1 : d = '&'
    · subst h1; rfl
    · by_cases h2 : d = '<'
      · subst h2; rfl
      · by_cases h3 : d = '>'
        · subst h3; rfl
        · by_cases h4 : d = quoteChar
          · subst h4; rfl
          · by_cases h5 : d = apostropheChar
            · subst h5; rfl
            · simp [replaceAllChar, escapeHtmlChar, h1, h2, h3, h4, h5]

theorem escapeHtml_data (s : String) :
    (escapeHtml s).data = s.data.flatMap escapeHtmlChar := by
  show (String.mk _).data = _
  rw [escapeHtml_passes_eq_flatMap]

theorem htmlFree_append {a b : List Char} (ha : HtmlFree a) (hb : HtmlFree b) :
    HtmlFree (a ++ b) := by
  intro c hc
  rcases List.mem_append.mp hc with h | h
  · exact ha c h
  · exact hb c h

theorem htmlFree_escapeHtmlChar (d : Char) : HtmlFree (escapeHtmlChar d) := by
  unfold HtmlFree
  by_cases h1 : d = '&'
  · subst h1; decide
  · by_cases h2 : d = '<'
    · subst h2; decide
    · by_cases h3 : d = '>'
      · subst h3; decide
      · by_cases h4 : d = quoteChar
        · subst h4; decide
        · by_cases h5 : d = apostropheChar
          · subst h5; decide
          · intro c hc
            simp [escapeHtmlChar, h1, h2, h3, h4, h5] at hc
            subst hc
            exact ⟨h2, h3, h4, h5⟩

theorem htmlFree_flatMap (l : List Char) : HtmlFree (l.flatMap escapeHtmlChar) := by
  induction l with
  | nil => intro c hc; simp at hc
  | cons d t ih =>
    rw [List.flatMap_cons]
    exact htmlFree_append (htmlFree_escapeHtmlChar d) ih

theorem ampWellFormed_nil : AmpWellFormed [] := by
  intro pre suf h
  exact absurd h (by simp)

theorem ampWellFormed_cons (c : Char) (l : List Char) :
    AmpWellFormed (c :: l) ↔
      (c = '&' → ∃ ent ∈ entitySuffixes, ent <+: l) ∧ AmpWellFormed l := by
  constructor
  · intro h
    refine ⟨fun hc => h [] l (by simp [hc]), fun pre suf hps => h (c :: pre) suf (by simp [hps])⟩
  · rintro ⟨h1, h2⟩ pre suf hps
    cases pre with
    | nil =>
      simp only [List.nil_append] at hps
      injection hps with hc hl
      subst hl
      exact h1 hc
    | cons x pre' =>
      simp only [List.cons_append] at hps
      injection hps with hx hrest
      exact h2 pre' suf hrest

theorem ampWellFormed_cons_of_ne (c : Char) (l : List Char) (hc : c ≠ '&')
    (h : AmpWellFormed l) : AmpWellFormed (c :: l) :=
  (ampWellFormed_cons c l).mpr ⟨fun h' => absurd h' hc, h⟩

theorem ampWellFormed_flatMap (l : List Char) :
    AmpWellFormed (l.flatMap escapeHtmlChar) := by
  induction l with
  | nil => exact ampWellFormed_nil
  | cons d t ih =>
    rw [List.flatMap_cons]
    by_cases h1 : d = '&'
    · subst h1
      show AmpWellFormed ('&' :: 'a' :: 'm' :: 'p' :: ';' :: t.flatMap escapeHtmlChar)
      refine (ampWellFormed_cons _ _).mpr
        ⟨fun _ => ⟨['a', 'm', 'p', ';'], by simp [entitySuffixes], ⟨_, rfl⟩⟩, ?_⟩
      exact ampWellFormed_cons_of_ne 'a' _ (by decide)
        (ampWellFormed_cons_of_ne 'm' _ (by decide)
          (ampWellFormed_cons_of_ne 'p' _ (by decide)
            (ampWellFormed_cons_of_ne ';' _ (by decide) ih)))
    · by_cases h2 : d = '<'
      · subst h2
        show AmpWellFormed ('&' :: 'l' :: 't' :: ';' :: t.flatMap escapeHtmlChar)
        refine (ampWellFormed_cons _ _).mpr
          ⟨fun _ => ⟨['l', 't', ';'], by simp [entitySuffixes], ⟨_, rfl⟩⟩, ?_⟩
        exact ampWellFormed_cons_of_ne 'l' _ (by decide)
          (ampWellFormed_cons_of_ne 't' _ (by decide)
            (ampWellFormed_cons_of_ne ';' _ (by decide) ih))
      · by_cases h3 : d = '>'
        · subst h3
          show AmpWellFormed ('&' :: 'g' :: 't' :: ';' :: t.flatMap escapeHtmlChar)
          refine (ampWellFormed_cons _ _).mpr
            ⟨fun _ => ⟨['g', 't', ';'], by simp [entitySuffixes], ⟨_, rfl⟩⟩, ?_⟩
          exact ampWellFormed_cons_of_ne 'g' _ (by decide)
            (ampWellFormed_cons_of_ne 't' _ (by decide)
              (ampWellFormed_cons_of_ne ';' _ (by decide) ih))
        · by_cases h4 : d = quoteChar
          · subst h4
            show AmpWellFormed ('&' :: 'q' :: 'u' :: 'o' :: 't' :: ';' :: t.flatMap escapeHtmlChar)
            refine (ampWellFormed_cons _ _).mpr
              ⟨fun _ => ⟨['q', 'u', 'o', 't', ';'], by simp [entitySuffixes], ⟨_, rfl⟩⟩, ?_⟩
            exact ampWellFormed_cons_of_ne 'q' _ (by decide)
              (ampWellFormed_cons_of_ne 'u' _ (by decide)
                (ampWellFormed_cons_of_ne 'o' _ (by decide)
                  (ampWellFormed_cons_of_ne 't' _ (by decide)
                    (ampWellFormed_cons_of_ne ';' _ (by decide) ih))))
          · by_cases h5 : d = apostropheChar
            · subst h5
              show AmpWellFormed ('&' :: '#' :: '3' :: '9' :: ';' :: t.flatMap escapeHtmlChar)
              refine (ampWellFormed_cons _ _).mpr
                ⟨fun _ => ⟨['#', '3', '9', ';'], by simp [entitySuffixes], ⟨_, rfl⟩⟩, ?_⟩
              exact ampWellFormed_cons_of_ne '#' _ (by decide)
                (ampWellFormed_cons_of_ne '3' _ (by decide)
                  (ampWellFormed_cons_of_ne '9' _ (by decide)
                    (ampWellFormed_cons_of_ne ';' _ (by decide) ih)))
            · have hd : escapeHtmlChar d = [d] := by
                simp [escapeHtmlChar, h1, h2, h3, h4, h5]
              rw [hd]
              exact ampWellFormed_cons_of_ne d _ h1 ih

theorem mem_runPanelEscapedValues (ws : SingleFileWorkspaceState) (v : String)
    (hv : v ∈ runPanelEscapedValues ws) : ∃ u, v = escapeHtml u := by
  simp only [runPanelEscapedValues, List.mem_append, List.mem_map,
    List.mem_cons, List.not_mem_nil, or_false] at hv
  rcases hv with ⟨p, _, rfl⟩ |
    rfl | rfl | rfl | rfl | rfl | rfl | rfl | rfl | rfl | rfl | rfl | rfl | rfl
  all_goals exact ⟨_, rfl⟩

/-- C10: for every input string the output of `escapeHtml` contains no raw
`<`, `>`, `"` or apostrophe and every `&` in it begins one of the entities
`&amp;` `&lt;` `&gt;` `&quot;` `&#39;`; hence every value interpolated into
the run-panel webview HTML is attribute-safe. -/
theorem claim10_escape_html_safe (s : String) (ws : SingleFileWorkspaceState)
    (v : String) (hv : v ∈ runPanelEscapedValues ws) :
    (HtmlFree (escapeHtml s).data ∧ AmpWellFormed (escapeHtml s).data) ∧
    (HtmlFree v.data ∧ AmpWellFormed v.data) := by
  have main : ∀ u : String,
      HtmlFree (escapeHtml u).data ∧ AmpWellFormed (escapeHtml u).data := by
    intro u
    rw [escapeHtml_data]
    exact ⟨htmlFree_flatMap _, ampWellFormed_flatMap _⟩
  obtain ⟨u, rfl⟩ := mem_runPanelEscapedValues ws v hv
  exact ⟨main s, main u⟩

/-- Witness for C10: the record with output file `a<b"` puts
`escapeHtml "a<b\x22"` into the run panel, and it is attribute-safe. -/
theorem claim10_escape_html_safe_witness :
    escapeHtml "a<b" ∈
      runPanelEscapedValues { getFallbackWorkspaceState with outputFile := "a<b" } ∧
    ((HtmlFree (escapeHtml "x").data ∧ AmpWellFormed (escapeHtml "x").data) ∧
     (HtmlFree (escapeHtml "a<b").data ∧ AmpWellFormed (escapeHtml "a<b").data)) :=
  ⟨by simp [runPanelEscapedValues],
   claim10_escape_html_safe "x" { getFallbackWorkspaceState with outputFile := "a<b" }
     (escapeHtml "a<b") (by simp [runPanelEscapedValues])⟩

end SingleFileVsix
